import Mathlib

/-!
Shallow embedding of the `bevy` ECS fork (alice-i-cecile/bevy) core pieces:
change-tick arithmetic, the relationship/kind registry, the animation step
helper, query access checking, query entity lookup, the stage run-criteria
loop, and ambiguity detection. Definitions are translated from the Rust
source; machine `u32` arithmetic is modelled on `Nat` with explicit
`% 2^32` reductions.
-/

namespace Bevy

/-- `2^32`, the modulus of `u32` arithmetic. -/
def U32 : Nat := 4294967296

/-- `u32::wrapping_sub`: subtraction modulo `2^32`.  Inputs are first reduced
so the definition is total on `Nat`. -/
def wrappingSub (a b : Nat) : Nat :=
  (a % U32 + (U32 - b % U32)) % U32

/-- `ComponentTicks` from `bevy_ecs/src/component/mod.rs`: the per-slot
"added" and "changed" 32-bit ticks. -/
structure ComponentTicks where
  added : Nat
  changed : Nat
  deriving Repr, DecidableEq

namespace ComponentTicks

/-- `ComponentTicks::is_added`: wraparound-safe "added since the system last
ran" check. -/
def is_added (t : ComponentTicks) (last_change_tick change_tick : Nat) : Bool :=
  let component_delta := wrappingSub change_tick t.added
  let system_delta := wrappingSub change_tick last_change_tick
  component_delta < system_delta

/-- `ComponentTicks::is_changed`: wraparound-safe "changed since the system
last ran" check. -/
def is_changed (t : ComponentTicks) (last_change_tick change_tick : Nat) : Bool :=
  let component_delta := wrappingSub change_tick t.changed
  let system_delta := wrappingSub change_tick last_change_tick
  component_delta < system_delta

end ComponentTicks

/-- `MAX_DELTA = (u32::MAX / 4) * 3` from `check_tick`. -/
def MAX_DELTA : Nat := (4294967295 / 4) * 3

/-- `check_tick` from `bevy_ecs/src/component/mod.rs`: clamps a stored tick
so its delta from the current tick never exceeds `MAX_DELTA`.  Returns the
new value of `*last_change_tick`. -/
def check_tick (last_change_tick change_tick : Nat) : Nat :=
  let tick_delta := wrappingSub change_tick last_change_tick
  if tick_delta > MAX_DELTA then wrappingSub change_tick MAX_DELTA
  else last_change_tick

/-- `ComponentTicks::check_ticks`: applies `check_tick` to both stored
ticks. -/
def ComponentTicks.check_ticks (t : ComponentTicks) (change_tick : Nat) :
    ComponentTicks :=
  { added := check_tick t.added change_tick
    changed := check_tick t.changed change_tick }

/-- `step_unclamped` from `bevy_animation/src/util.rs`.  The time parameter
is modelled on `ℚ`; only its order relative to `1` is consumed. -/
def step_unclamped {T : Type} (a b : T) (t : ℚ) : T :=
  if t ≥ 1 then a else b

/-! ### Relationship registry (`bevy_ecs/src/component/mod.rs`) -/

/-- A Rust `TypeId`, abstracted to a natural number. -/
abbrev TypeId := Nat

/-- `RelationshipKindId(usize)`. -/
abbrev RelationshipKindId := Nat

/-- `RelationshipId(usize)`. -/
abbrev RelationshipId := Nat

/-- `Relship { kind, target }`: a kind id plus an optional target entity
(entities abstracted to their index). -/
structure Relship where
  kind : RelationshipKindId
  target : Option Nat
  deriving Repr, DecidableEq

/-- `RelationshipInfo { id, kind, target }`. -/
structure RelationshipInfo where
  id : RelationshipId
  kind : RelationshipKindId
  target : Option Nat
  deriving Repr, DecidableEq

/-- `RelationshipKindInfo`: the registry record for one kind.  The
`DataLayout` payload is irrelevant to the registration logic and is kept as
the registering `TypeId`. -/
structure RelationshipKindInfo where
  data : TypeId
  id : RelationshipKindId
  deriving Repr, DecidableEq

/-- Association-list lookup standing in for `HashMap::get`. -/
def assocGet (m : List (TypeId × Nat)) (k : TypeId) : Option Nat :=
  (m.find? (fun p => p.1 == k)).map (·.2)

/-- Association-list insert standing in for `HashMap::insert`; returns the
previous value, like Rust's `insert`. -/
def assocInsert (m : List (TypeId × Nat)) (k : TypeId) (v : Nat) :
    Option Nat × List (TypeId × Nat) :=
  match assocGet m k with
  | some prev => (some prev, (k, v) :: m.filter (fun p => p.1 != k))
  | none => (none, (k, v) :: m)

/-- Association-list lookup keyed by `Relship`. -/
def relGet (m : List (Relship × RelationshipId)) (k : Relship) :
    Option RelationshipId :=
  (m.find? (fun p => p.1 == k)).map (·.2)

/-- The `Relationships` registry: relationship records, the
`Relship → RelationshipId` index, kind records, and the per-role
(component / resource) `TypeId → RelationshipKindId` indices. -/
structure Relationships where
  relationships : List RelationshipInfo
  relationship_indices : List (Relship × RelationshipId)
  kinds : List RelationshipKindInfo
  component_indices : List (TypeId × RelationshipKindId)
  resource_indices : List (TypeId × RelationshipKindId)
  deriving Repr, DecidableEq

/-- `RelationshipsError`. -/
inductive RelationshipsError where
  | RelationshipAlreadyExists (r : Relship)
  | TypeIdDummyIdAlreadyExists (t : TypeId)
  deriving Repr, DecidableEq

namespace Relationships

/-- The empty registry (`Relationships::default()`). -/
def default : Relationships :=
  { relationships := [], relationship_indices := [], kinds := []
    component_indices := [], resource_indices := [] }

/-- `Relationships::new_component_relationship_kind`.  The Rust function
asserts that the type id was not previously inserted; the assertion failure
(panic) is modelled as `Except.error`. -/
def new_component_relationship_kind (r : Relationships) (type_id : TypeId) :
    Except String (RelationshipKindId × Relationships) :=
  let id := r.kinds.length
  let (prev_inserted, component_indices) := assocInsert r.component_indices type_id id
  if prev_inserted.isSome then
    Except.error "assertion failed: prev_inserted.is_none()"
  else
    Except.ok (id, { r with
      component_indices := component_indices
      kinds := r.kinds ++ [{ data := type_id, id := id }] })

/-- `Relationships::new_resource_relationship_kind`, with the same
assert-as-error modelling. -/
def new_resource_relationship_kind (r : Relationships) (type_id : TypeId) :
    Except String (RelationshipKindId × Relationships) :=
  let id := r.kinds.length
  let (prev_inserted, resource_indices) := assocInsert r.resource_indices type_id id
  if prev_inserted.isSome then
    Except.error "assertion failed: prev_inserted.is_none()"
  else
    Except.ok (id, { r with
      resource_indices := resource_indices
      kinds := r.kinds ++ [{ data := type_id, id := id }] })

/-- `Relationships::get_component_relationship_kind_or_insert`. -/
def get_component_relationship_kind_or_insert (r : Relationships)
    (type_id : TypeId) : Except String (RelationshipKindId × Relationships) :=
  match assocGet r.component_indices type_id with
  | some kind => Except.ok (kind, r)
  | none => r.new_component_relationship_kind type_id

/-- `Relationships::get_resource_relationship_kind_or_insert`.  NOTE: the
source consults `component_indices` here (not `resource_indices`), which is
what this embedding faithfully reproduces. -/
def get_resource_relationship_kind_or_insert (r : Relationships)
    (type_id : TypeId) : Except String (RelationshipKindId × Relationships) :=
  match assocGet r.component_indices type_id with
  | some kind => Except.ok (kind, r)
  | none => r.new_resource_relationship_kind type_id

/-- `Relationships::register_relationship`.  On a duplicate `(kind, target)`
pair the Rust function returns early with
`RelationshipsError::RelationshipAlreadyExists` and leaves `self`
untouched; success returns the fresh id and the updated registry. -/
def register_relationship (r : Relationships) (relationship : Relship) :
    Except RelationshipsError RelationshipId × Relationships :=
  let rel_id := r.relationships.length
  if (relGet r.relationship_indices relationship).isSome then
    (Except.error (RelationshipsError.RelationshipAlreadyExists relationship), r)
  else
    (Except.ok rel_id, { r with
      relationship_indices := (relationship, rel_id) :: r.relationship_indices
      relationships := r.relationships ++
        [{ id := rel_id, kind := relationship.kind, target := relationship.target }] })

/-- `Relationships::len`. -/
def len (r : Relationships) : Nat := r.relationships.length

end Relationships

/-! ### Query component access (`bevy_ecs/src/query/fetch.rs`) -/

/-- Modelled from the spec: the `Access` set farmed out to
`bevy_ecs/src/query/access.rs`, which is not among the provided sources.
Per the spec's merged read/write footprint, it tracks the kinds accessed at
all (`reads_and_writes`) and the kinds accessed exclusively (`writes`);
`add_read` records a shared access, `add_write` records an exclusive access
(which is also an access), and `has_read`/`has_write` test the two sets. -/
structure Access where
  reads_and_writes : Finset Nat
  writes : Finset Nat
  deriving DecidableEq

def Access.has_read (a : Access) (id : Nat) : Bool := id ∈ a.reads_and_writes

def Access.has_write (a : Access) (id : Nat) : Bool := id ∈ a.writes

def Access.add_read (a : Access) (id : Nat) : Access :=
  { a with reads_and_writes := insert id a.reads_and_writes }

def Access.add_write (a : Access) (id : Nat) : Access :=
  { reads_and_writes := insert id a.reads_and_writes
    writes := insert id a.writes }

/-- Modelled from the spec: `FilteredAccess` (also from the missing
`access.rs`) wraps an `Access`; the `with`/`without` filter sets play no
role in the shared/exclusive conflict rule and are omitted. -/
structure FilteredAccess where
  access : Access
  deriving DecidableEq

/-- `FilteredAccess::default()`: empty access. -/
def FilteredAccess.default : FilteredAccess := ⟨⟨∅, ∅⟩⟩

def FilteredAccess.add_read (f : FilteredAccess) (id : Nat) : FilteredAccess :=
  { access := f.access.add_read id }

def FilteredAccess.add_write (f : FilteredAccess) (id : Nat) : FilteredAccess :=
  { access := f.access.add_write id }

/-- A query shape: `&T` (`read`), `&mut T` (`write`),
`ChangeTrackers<T>` (`changeTrackers`), `Entity` (`entity`), and tuple
composition.  The Rust tuple macro updates component access sequentially,
one element after the other; `pair` is that sequential composition, and
nesting `pair`s gives every tuple arity and nesting depth.  Component kinds
are identified by their `RelationKindId`, abstracted to `Nat`. -/
inductive WorldQueryShape where
  | read (id : Nat)
  | write (id : Nat)
  | changeTrackers (id : Nat)
  | entity
  | pair (q r : WorldQueryShape)

/-- `FetchState::update_component_access` for each query shape, following
`ReadState`, `WriteState`, `ChangeTrackersState`, `EntityState` and the
tuple macro in `fetch.rs`.  The `panic!` calls are modelled as
`Except.error`. -/
def updateComponentAccess : WorldQueryShape → FilteredAccess → Except String FilteredAccess
  | .read id, access =>
    if access.access.has_write id then
      .error "&T conflicts with a previous access in this query. Shared access cannot coincide with exclusive access."
    else .ok (access.add_read id)
  | .write id, access =>
    if access.access.has_read id then
      .error "&mut T conflicts with a previous access in this query. Mutable component access must be unique."
    else .ok (access.add_write id)
  | .changeTrackers id, access =>
    if access.access.has_write id then
      .error "ChangeTrackers<T> conflicts with a previous access in this query. Shared access cannot coincide with exclusive access."
    else .ok (access.add_read id)
  | .entity, access => .ok access
  | .pair q r, access =>
    match updateComponentAccess q access with
    | .error e => .error e
    | .ok access => updateComponentAccess r access

/-- The kinds a shape accesses in shared mode (`&T` or `ChangeTrackers<T>`). -/
def sharedKinds : WorldQueryShape → Finset Nat
  | .read id => {id}
  | .write _ => ∅
  | .changeTrackers id => {id}
  | .entity => ∅
  | .pair q r => sharedKinds q ∪ sharedKinds r

/-- The kinds a shape accesses in exclusive mode (`&mut T`). -/
def writeKinds : WorldQueryShape → Finset Nat
  | .read _ => ∅
  | .write id => {id}
  | .changeTrackers _ => ∅
  | .entity => ∅
  | .pair q r => writeKinds q ∪ writeKinds r

/-! ### Query entity lookup (`bevy_ecs/src/query/state.rs`) -/

/-- `QueryEntityError` from `state.rs`. -/
inductive QueryEntityError where
  | QueryDoesNotMatch
  | NoSuchEntity
  deriving Repr, DecidableEq

/-- `EntityLocation`: the `(archetype id, row index)` an entity resolves
to. -/
structure EntityLocation where
  archetype_id : Nat
  index : Nat
  deriving Repr, DecidableEq

/-- The entity table `world.entities`, as an association list from entity
index to location (`Entities::get`). -/
def entitiesGet (entities : List (Nat × EntityLocation)) (entity : Nat) :
    Option EntityLocation :=
  (entities.find? (fun p => p.1 == entity)).map (·.2)

/-- The parts of a `QueryState` and its generic fetch/filter machinery that
`get_unchecked_manual` consumes: the matched-archetype set of the current
query access cache, and the filter / fetch evaluated against an archetype
(`set_archetype`) at a row (`archetype_filter_fetch` / `archetype_fetch`,
abstracted to functions of archetype id and row). -/
structure QueryStateModel (Item : Type) where
  matched_archetypes : Finset Nat
  archetype_filter_fetch : Nat → Nat → Bool
  archetype_fetch : Nat → Nat → Item

/-- `QueryState::get_unchecked_manual`: resolve the entity, check its
archetype against the matched set, then run the filter and fetch at its
row.  `QueryState::get` and `get_mut` forward here unchanged. -/
def get_unchecked_manual {Item : Type} (entities : List (Nat × EntityLocation))
    (qs : QueryStateModel Item) (entity : Nat) : Except QueryEntityError Item :=
  match entitiesGet entities entity with
  | none => .error .NoSuchEntity
  | some location =>
    if location.archetype_id ∈ qs.matched_archetypes then
      if qs.archetype_filter_fetch location.archetype_id location.index then
        .ok (qs.archetype_fetch location.archetype_id location.index)
      else .error .QueryDoesNotMatch
    else .error .QueryDoesNotMatch

/-! ### Stage run-criteria loop (`bevy_ecs/src/schedule/stage.rs`) -/

/-- `ShouldRun` from the schedule module. -/
inductive ShouldRun where
  | Yes
  | No
  | YesAndCheckAgain
  | NoAndCheckAgain
  deriving Repr, DecidableEq

/-- `RunCriteriaInner`: a criteria is either a single boxed system or a
piped system reading its parent criteria's fresh result.  A criteria
system's results across re-evaluations (it reads the mutating `World`) are
abstracted as a function of the re-evaluation round. -/
inductive RunCriteriaInner where
  | Single (sys : Nat → ShouldRun)
  | Piped (parent : Nat) (sys : Nat → ShouldRun → ShouldRun)

/-- `matches!(_, ShouldRun::Yes | ShouldRun::YesAndCheckAgain)`. -/
def shouldRunMatchesYes : ShouldRun → Bool
  | .Yes => true
  | .YesAndCheckAgain => true
  | _ => false

/-- The local `should_run` helper inside `SystemStage::run`: a container's
run-criteria index is resolved against the criteria states, falling back to
`default` for containers without criteria. -/
def containerShouldRun (criteria_index : Option Nat)
    (run_criteria : List ShouldRun) (default : ShouldRun) : Bool :=
  shouldRunMatchesYes ((criteria_index.map
    (fun index => run_criteria.getD index default)).getD default)

/-- The end-of-iteration criteria re-evaluation (stage.rs lines 726-759):
walk the criteria in order; `No` stays, `Yes` becomes `No`, and the two
`AndCheckAgain` states re-run their system (a piped criteria reads its
parent's already-updated value from the processed prefix `done`); the
returned flag is `run_system_loop`, set whenever a re-run returned anything
but `No`. -/
def reevalAux (round : Nat) (inners : List RunCriteriaInner) :
    List ShouldRun → Nat → List ShouldRun → Bool → (List ShouldRun × Bool)
  | done, _, [], flag => (done, flag)
  | done, index, c :: rest, flag =>
    match c with
    | .No => reevalAux round inners (done ++ [.No]) (index + 1) rest flag
    | .Yes => reevalAux round inners (done ++ [.No]) (index + 1) rest flag
    | .YesAndCheckAgain =>
      let newVal := match inners.getD index (.Single fun _ => .No) with
        | .Single sys => sys round
        | .Piped parent sys => sys round (done.getD parent .No)
      reevalAux round inners (done ++ [newVal]) (index + 1) rest
        (flag || !(newVal == .No))
    | .NoAndCheckAgain =>
      let newVal := match inners.getD index (.Single fun _ => .No) with
        | .Single sys => sys round
        | .Piped parent sys => sys round (done.getD parent .No)
      reevalAux round inners (done ++ [newVal]) (index + 1) rest
        (flag || !(newVal == .No))

def reevalCriteria (round : Nat) (inners : List RunCriteriaInner)
    (cs : List ShouldRun) : List ShouldRun × Bool :=
  reevalAux round inners [] 0 cs false

/-- The inner `while run_system_loop` of `SystemStage::run`.  Each system
container (of any stage segment) is its optional run-criteria index; the
returned log records, per iteration, which systems were gated to run.  The
body always executes once, `default_should_run` starts at `Yes` at the call
site and is reset to `No` at the end of every iteration, and the loop
repeats exactly when re-evaluation set the flag; `fuel` truncates a
criteria chain that would loop forever. -/
def runSystemLoop (inners : List RunCriteriaInner) (systems : List (Option Nat)) :
    Nat → Nat → List ShouldRun → ShouldRun → List (List Bool)
  | 0, _, cs, default =>
    [systems.map (fun c => containerShouldRun c cs default)]
  | fuel + 1, round, cs, default =>
    let ran := systems.map (fun c => containerShouldRun c cs default)
    let st := reevalCriteria round inners cs
    if st.2 then ran :: runSystemLoop inners systems fuel (round + 1) st.1 .No
    else [ran]

/-! ### Ambiguity detection (`bevy_ecs/src/schedule/ambiguity_detection.rs`) -/

inductive ExecutionOrderAmbiguities where
  | Allow
  | Warn
  | WarnVerbose
  | WarnInternal
  | Deny
  | Forbid
  deriving Repr, DecidableEq, BEq

inductive AmbiguityDetection where
  | Ignore
  | Check
  | IgnoreWithLabel (labels : List Nat)
  deriving Repr, DecidableEq

structure SystemContainer where
  dependencies : List Nat
  ambiguity_detection : AmbiguityDetection
  labels : List Nat
  name : String
  component_access : Option Access

def SystemContainer.default : SystemContainer := ⟨[], .Check, [], "", none⟩

def Access.get_conflicts (a other : Access) : Finset Nat :=
  (a.writes ∩ other.reads_and_writes) ∪ (a.reads_and_writes ∩ other.writes)

def should_ignore_ambiguity (systems : List SystemContainer) (index_a index_b : Nat)
    (crates_filter : List String) (report_level : ExecutionOrderAmbiguities) : Bool :=
  if report_level = .Forbid then false
  else
    let system_a := systems.getD index_a .default
    let system_b := systems.getD index_b .default
    (match system_a.ambiguity_detection with
      | .Ignore => true
      | .Check => false
      | .IgnoreWithLabel labels => labels.any (fun l => system_b.labels.contains l))
    || (match system_b.ambiguity_detection with
      | .Ignore => true
      | .Check => false
      | .IgnoreWithLabel labels => labels.any (fun l => system_a.labels.contains l))
    || (crates_filter.any (fun s => system_a.name.startsWith s)
        && crates_filter.any (fun s => system_b.name.startsWith s))

def buildDependencyMaps : List SystemContainer → Nat → List (Finset Nat) →
    List (Finset Nat) → (List (Finset Nat) × List (Finset Nat))
  | [], _, all_dependencies, all_dependants => (all_dependencies, all_dependants)
  | container :: rest, index, all_dependencies, all_dependants =>
    let st := container.dependencies.foldl
      (fun (p : Finset Nat × List (Finset Nat)) dependency =>
        (insert dependency (p.1 ∪ all_dependencies.getD dependency ∅),
         p.2.set dependency (insert index (p.2.getD dependency ∅))))
      (∅, all_dependants)
    buildDependencyMaps rest (index + 1) (all_dependencies ++ [st.1]) (st.2 ++ [∅])

def closeDependantsAux : List Nat → List (Finset Nat) → List (Finset Nat)
  | [], all_dependants => all_dependants
  | index :: rest, all_dependants =>
    let dependants := (all_dependants.getD index ∅).biUnion
      (fun dependant => insert dependant (all_dependants.getD dependant ∅))
    closeDependantsAux rest (all_dependants.set index dependants)

def allRelations (systems : List SystemContainer) : List (Finset Nat) :=
  let n := systems.length
  let maps := buildDependencyMaps systems 0 [] []
  let all_dependants := closeDependantsAux ((List.range n).reverse) maps.2
  (List.range n).map (fun index =>
    insert index (maps.1.getD index ∅ ∪ all_dependants.getD index ∅))

def ambiguityInner (systems : List SystemContainer) (crates_filter : List String)
    (report_level : ExecutionOrderAmbiguities) (index_a : Nat) (processed : Finset Nat) :
    List Nat → List (Nat × Nat × Finset Nat) → List (Nat × Nat × Finset Nat)
  | [], ambiguities => ambiguities
  | index_b :: rest, ambiguities =>
    let ambiguities :=
      if index_b ∉ processed
          ∧ should_ignore_ambiguity systems index_a index_b crates_filter report_level = false then
        match (systems.getD index_a .default).component_access,
            (systems.getD index_b .default).component_access with
        | some a, some b =>
          let component_ids := a.get_conflicts b
          if component_ids ≠ ∅ then ambiguities ++ [(index_a, index_b, component_ids)]
          else ambiguities
        | _, _ => ambiguities ++ [(index_a, index_b, ∅)]
      else ambiguities
    ambiguityInner systems crates_filter report_level index_a processed rest ambiguities

def ambiguityOuter (systems : List SystemContainer) (crates_filter : List String)
    (report_level : ExecutionOrderAmbiguities) (relations : List (Finset Nat)) :
    List Nat → Finset Nat → List (Nat × Nat × Finset Nat) → List (Nat × Nat × Finset Nat)
  | [], _, ambiguities => ambiguities
  | index_a :: rest, processed, ambiguities =>
    let bs := (List.range systems.length).filter
      (fun index_b => index_b ∉ relations.getD index_a ∅)
    let ambiguities :=
      ambiguityInner systems crates_filter report_level index_a processed bs ambiguities
    ambiguityOuter systems crates_filter report_level relations rest
      (insert index_a processed) ambiguities

def find_ambiguities (systems : List SystemContainer) (crates_filter : List String)
    (report_level : ExecutionOrderAmbiguities) : List (Nat × Nat × Finset Nat) :=
  ambiguityOuter systems crates_filter report_level (allRelations systems)
    (List.range systems.length) ∅ []

def dependsOn (systems : List SystemContainer) (i j : Nat) : Prop :=
  j ∈ (systems.getD i .default).dependencies

def TopoSorted (systems : List SystemContainer) : Prop :=
  ∀ i < systems.length, ∀ j ∈ (systems.getD i .default).dependencies, j < i

/-! ### Theorems -/

/-! ### Theorems: tick arithmetic -/

lemma wrappingSub_lt (a b : Nat) : wrappingSub a b < U32 := by
  simp only [wrappingSub, U32]
  omega

/-- Undoing a backwards offset: the wrapping distance from `c` back to the
tick lying `d` steps before `c` is exactly `d`. -/
lemma wrappingSub_wrappingSub_self (c d : Nat) (hd : d < U32) :
    wrappingSub c (wrappingSub c d) = d := by
  simp only [wrappingSub, U32] at *
  omega

/-- C1: `is_changed` returns true iff
`change_tick.wrapping_sub(changed) < change_tick.wrapping_sub(last_change_tick)`,
and `is_added` does the same with the added tick; consequently, writing the
stored tick and the system's last-run tick as `change_tick` minus backward
deltas `dc` and `dl`, the check detects the slot iff `dc < dl`, i.e. iff the
slot's tick lies after the last-run tick in modular-arithmetic order, even
when the counter has wrapped past `u32::MAX`. -/
theorem is_changed_is_added_modular_order (t : ComponentTicks)
    (a ch l c dl dc : Nat) (hdl : dl < U32) (hdc : dc < U32) :
    (t.is_changed l c = true ↔ wrappingSub c t.changed < wrappingSub c l)
    ∧ (t.is_added l c = true ↔ wrappingSub c t.added < wrappingSub c l)
    ∧ ((⟨a, wrappingSub c dc⟩ : ComponentTicks).is_changed (wrappingSub c dl) c
        = true ↔ dc < dl)
    ∧ ((⟨wrappingSub c dc, ch⟩ : ComponentTicks).is_added (wrappingSub c dl) c
        = true ↔ dc < dl) := by
  refine ⟨?_, ?_, ?_, ?_⟩
  · simp [ComponentTicks.is_changed]
  · simp [ComponentTicks.is_added]
  · simp [ComponentTicks.is_changed,
      wrappingSub_wrappingSub_self c dc hdc, wrappingSub_wrappingSub_self c dl hdl]
  · simp [ComponentTicks.is_added,
      wrappingSub_wrappingSub_self c dc hdc, wrappingSub_wrappingSub_self c dl hdl]

/-- C1 witness: with current tick `5` (the counter has wrapped), a slot
changed `3` ticks ago is detected against a system that last ran `100`
ticks ago; both stored ticks lie just below `u32::MAX`. -/
theorem is_changed_is_added_modular_order_witness :
    (⟨0, wrappingSub 5 3⟩ : ComponentTicks).is_changed (wrappingSub 5 100) 5
      = true :=
  (is_changed_is_added_modular_order ⟨0, wrappingSub 5 3⟩ 0 0
    (wrappingSub 5 100) 5 100 3 (by decide) (by decide)).2.2.1.mpr (by decide)

/-- C8: after `check_tick(&mut stored, current)` the wrapping delta
`current.wrapping_sub(stored)` is at most `MAX_DELTA = (u32::MAX / 4) * 3`;
a stored tick already within that bound is left unchanged; and
`ComponentTicks::check_ticks` applies `check_tick` to both the added and the
changed tick. -/
theorem check_tick_clamps (stored c : Nat) :
    wrappingSub c (check_tick stored c) ≤ MAX_DELTA
    ∧ (wrappingSub c stored ≤ MAX_DELTA → check_tick stored c = stored)
    ∧ (∀ t : ComponentTicks, t.check_ticks c =
        ⟨check_tick t.added c, check_tick t.changed c⟩) := by
  refine ⟨?_, ?_, fun t => rfl⟩
  · unfold check_tick
    by_cases h : wrappingSub c stored > MAX_DELTA
    · rw [if_pos h, wrappingSub_wrappingSub_self c MAX_DELTA (by decide)]
    · rw [if_neg h]
      omega
  · intro h
    unfold check_tick
    rw [if_neg (by omega)]

/-- C8 witness: clamping under wraparound at current tick `2`, with a stored
tick of `10` (whose wrapping delta exceeds `MAX_DELTA`), and preservation of
an in-window stored tick `1`. -/
theorem check_tick_clamps_witness :
    wrappingSub 2 (check_tick 10 2) ≤ MAX_DELTA ∧ check_tick 1 2 = 1 :=
  ⟨(check_tick_clamps 10 2).1,
   (check_tick_clamps 1 2).2.1 (by decide)⟩

/-- C9: `step_unclamped(a, b, t)` returns `b` when `t < 1.0` and `a` when
`t >= 1.0` — the comparison direction the spec records, not the one the
source's doc comment describes. -/
theorem step_unclamped_reversed {T : Type} (a b : T) (t : ℚ) :
    (t < 1 → step_unclamped a b t = b) ∧ (1 ≤ t → step_unclamped a b t = a) := by
  constructor
  · intro h
    simp [step_unclamped, not_le.mpr h]
  · intro h
    simp [step_unclamped, h]

/-- C9 witness: `step_unclamped 1 2 0 = 2` and `step_unclamped 1 2 (3/2) = 1`
over `T = Nat`. -/
theorem step_unclamped_reversed_witness :
    step_unclamped (1 : Nat) 2 0 = 2 ∧ step_unclamped (1 : Nat) 2 (3/2) = 1 :=
  ⟨(step_unclamped_reversed 1 2 0).1 (by norm_num),
   (step_unclamped_reversed 1 2 (3/2)).2 (by norm_num)⟩

/-! ### Theorems: relationship registry -/

/-- C2: evaluating the code on a type id `7` first registered as a resource
kind: `get_resource_relationship_kind_or_insert` consults
`component_indices`, misses, and re-runs `new_resource_relationship_kind`,
whose `assert!(prev_inserted.is_none())` fails (a panic, modelled as
`Except.error`) instead of returning the existing resource kind id. -/
theorem get_resource_kind_or_insert_panics_on_registered :
    (Relationships.default.new_resource_relationship_kind 7).map
      (fun p => p.2.get_resource_relationship_kind_or_insert 7)
      = Except.ok (Except.error "assertion failed: prev_inserted.is_none()") :=
  rfl

/-- C10: `register_relationship` on a `(kind, target)` pair already present
in `relationship_indices` returns `RelationshipAlreadyExists` and leaves the
registry completely unchanged (hence `len()` is unchanged too). -/
theorem register_relationship_atomic_on_error (r : Relationships)
    (rel : Relship) (h : (relGet r.relationship_indices rel).isSome = true) :
    r.register_relationship rel =
      (Except.error (RelationshipsError.RelationshipAlreadyExists rel), r)
    ∧ (r.register_relationship rel).2.len = r.len := by
  have he : r.register_relationship rel =
      (Except.error (RelationshipsError.RelationshipAlreadyExists rel), r) := by
    simp [Relationships.register_relationship, h]
  exact ⟨he, by rw [he]⟩

/-- C10 witness: a registry holding one relationship `(kind 5, no target)`
rejects a duplicate registration and is returned unchanged. -/
theorem register_relationship_atomic_on_error_witness :
    Relationships.register_relationship
      ⟨[⟨0, 5, none⟩], [(⟨5, none⟩, 0)], [], [], []⟩ ⟨5, none⟩ =
      (Except.error (RelationshipsError.RelationshipAlreadyExists ⟨5, none⟩),
        ⟨[⟨0, 5, none⟩], [(⟨5, none⟩, 0)], [], [], []⟩) :=
  (register_relationship_atomic_on_error
    ⟨[⟨0, 5, none⟩], [(⟨5, none⟩, 0)], [], [], []⟩ ⟨5, none⟩ (by decide)).1

/-- A successful `update_component_access` accumulates exactly the shape's
shared and exclusive kinds on top of the incoming access. -/
lemma updateComponentAccess_accumulates (s : WorldQueryShape) :
    ∀ (acc acc' : FilteredAccess),
    updateComponentAccess s acc = .ok acc' → ∀ k,
    (k ∈ acc'.access.reads_and_writes ↔
      k ∈ acc.access.reads_and_writes ∨ k ∈ sharedKinds s ∨ k ∈ writeKinds s)
    ∧ (k ∈ acc'.access.writes ↔ k ∈ acc.access.writes ∨ k ∈ writeKinds s) := by
  induction s with
  | read id =>
    intro acc acc' h k
    by_cases hw : acc.access.has_write id
    · simp [updateComponentAccess, hw] at h
    · simp [updateComponentAccess, hw] at h
      subst h
      simp [FilteredAccess.add_read, Access.add_read, sharedKinds, writeKinds]
      tauto
  | write id =>
    intro acc acc' h k
    by_cases hr : acc.access.has_read id
    · simp [updateComponentAccess, hr] at h
    · simp [updateComponentAccess, hr] at h
      subst h
      simp [FilteredAccess.add_write, Access.add_write, sharedKinds, writeKinds]
      tauto
  | changeTrackers id =>
    intro acc acc' h k
    by_cases hw : acc.access.has_write id
    · simp [updateComponentAccess, hw] at h
    · simp [updateComponentAccess, hw] at h
      subst h
      simp [FilteredAccess.add_read, Access.add_read, sharedKinds, writeKinds]
      tauto
  | entity =>
    intro acc acc' h k
    simp [updateComponentAccess] at h
    subst h
    simp [sharedKinds, writeKinds]
  | pair q r ihq ihr =>
    intro acc acc' h k
    simp only [updateComponentAccess] at h
    cases hq : updateComponentAccess q acc with
    | error e => rw [hq] at h; exact absurd h (by simp)
    | ok acc1 =>
      rw [hq] at h
      have h1 := ihq acc acc1 hq k
      have h2 := ihr acc1 acc' h k
      clear h hq ihq ihr
      simp only [sharedKinds, writeKinds, Finset.mem_union]
      refine ⟨?_, ?_⟩
      · rw [h2.1, h1.1]
        have h12 := h1.2
        clear h1 h2
        tauto
      · rw [h2.2, h1.2]
        clear h1 h2
        tauto

/-- A successful `update_component_access` certifies the shape free of
shared/exclusive aliasing, both against the incoming access and internally. -/
lemma updateComponentAccess_ok_no_conflict (s : WorldQueryShape) :
    ∀ (acc acc' : FilteredAccess),
    updateComponentAccess s acc = .ok acc' → ∀ k,
    (k ∈ sharedKinds s → k ∉ acc.access.writes)
    ∧ (k ∈ writeKinds s → k ∉ acc.access.reads_and_writes)
    ∧ ¬(k ∈ sharedKinds s ∧ k ∈ writeKinds s) := by
  induction s with
  | read id =>
    intro acc acc' h k
    by_cases hw : acc.access.has_write id
    · simp [updateComponentAccess, hw] at h
    · simp [updateComponentAccess, hw] at h
      simp [sharedKinds, writeKinds, Access.has_write] at hw ⊢
      rintro rfl
      exact hw
  | write id =>
    intro acc acc' h k
    by_cases hr : acc.access.has_read id
    · simp [updateComponentAccess, hr] at h
    · simp [updateComponentAccess, hr] at h
      simp [sharedKinds, writeKinds, Access.has_read] at hr ⊢
      rintro rfl
      exact hr
  | changeTrackers id =>
    intro acc acc' h k
    by_cases hw : acc.access.has_write id
    · simp [updateComponentAccess, hw] at h
    · simp [updateComponentAccess, hw] at h
      simp [sharedKinds, writeKinds, Access.has_write] at hw ⊢
      rintro rfl
      exact hw
  | entity =>
    intro acc acc' h k
    simp [sharedKinds, writeKinds]
  | pair q r ihq ihr =>
    intro acc acc' h k
    simp only [updateComponentAccess] at h
    cases hq : updateComponentAccess q acc with
    | error e => rw [hq] at h; exact absurd h (by simp)
    | ok acc1 =>
      rw [hq] at h
      have hA := updateComponentAccess_accumulates q acc acc1 hq k
      have h1 := ihq acc acc1 hq k
      have h2 := ihr acc1 acc' h k
      rw [hA.1, hA.2] at h2
      clear h hq ihq ihr hA
      simp only [sharedKinds, writeKinds, Finset.mem_union]
      tauto

/-- C5: a query shape in which some component kind `k` appears both in
shared mode (`&T` or `ChangeTrackers<T>`) and in exclusive mode (`&mut T`),
in any order and at any nesting depth, makes `update_component_access`
panic (error) from every starting access — in particular from the empty
`FilteredAccess` that `QueryState::new` starts with — rather than produce
an access set aliasing shared and exclusive access. -/
theorem query_conflict_rejection (s : WorldQueryShape) (k : Nat)
    (hs : k ∈ sharedKinds s) (hw : k ∈ writeKinds s) (acc : FilteredAccess) :
    (updateComponentAccess s acc).isOk = false := by
  cases h : updateComponentAccess s acc with
  | error e => rfl
  | ok acc' =>
    exact absurd ⟨hs, hw⟩ ((updateComponentAccess_ok_no_conflict s acc acc' h k).2.2)

/-- C5 witness: both `(&T, &mut T)` and the nested
`(&mut T, (ChangeTrackers<T>,))` fail from the empty access. -/
theorem query_conflict_rejection_witness :
    (updateComponentAccess (.pair (.read 0) (.write 0))
      FilteredAccess.default).isOk = false
    ∧ (updateComponentAccess (.pair (.write 3) (.pair .entity (.changeTrackers 3)))
      FilteredAccess.default).isOk = false :=
  ⟨query_conflict_rejection (.pair (.read 0) (.write 0)) 0
      (by decide) (by decide) FilteredAccess.default,
   query_conflict_rejection (.pair (.write 3) (.pair .entity (.changeTrackers 3))) 3
      (by decide) (by decide) FilteredAccess.default⟩

/-- C6: `get_unchecked_manual` (hence `QueryState::get`) returns
`Err(NoSuchEntity)` when the entity does not resolve in the entity table,
and `Err(QueryDoesNotMatch)` when it resolves but its archetype is outside
the query's matched set or the filter rejects its row; both absence cases
produce a typed `Err`, never a panic (the embedding is a total function
into `Except`). -/
theorem query_get_absence_typed {Item : Type}
    (entities : List (Nat × EntityLocation)) (qs : QueryStateModel Item)
    (entity : Nat) :
    (entitiesGet entities entity = none →
      get_unchecked_manual entities qs entity = .error .NoSuchEntity)
    ∧ (∀ loc, entitiesGet entities entity = some loc →
        loc.archetype_id ∉ qs.matched_archetypes →
        get_unchecked_manual entities qs entity = .error .QueryDoesNotMatch)
    ∧ (∀ loc, entitiesGet entities entity = some loc →
        qs.archetype_filter_fetch loc.archetype_id loc.index = false →
        get_unchecked_manual entities qs entity = .error .QueryDoesNotMatch) := by
  refine ⟨fun h => ?_, fun loc h hm => ?_, fun loc h hf => ?_⟩
  · simp [get_unchecked_manual, h]
  · simp [get_unchecked_manual, h, hm]
  · simp only [get_unchecked_manual, h, hf]
    split <;> simp

/-- C6 witness: entity `0` is absent from an empty world; entity `1` lives
in archetype `2` which a query with an empty matched set rejects. -/
theorem query_get_absence_typed_witness :
    get_unchecked_manual []
      (⟨∅, fun _ _ => true, fun _ _ => 0⟩ : QueryStateModel Nat) 0
      = .error .NoSuchEntity
    ∧ get_unchecked_manual [(1, ⟨2, 0⟩)]
      (⟨∅, fun _ _ => true, fun _ _ => 0⟩ : QueryStateModel Nat) 1
      = .error .QueryDoesNotMatch :=
  ⟨(query_get_absence_typed [] ⟨∅, fun _ _ => true, fun _ _ => 0⟩ 0).1 rfl,
   (query_get_absence_typed [(1, ⟨2, 0⟩)] ⟨∅, fun _ _ => true, fun _ _ => 0⟩ 1).2.1
      ⟨2, 0⟩ rfl (by decide)⟩




/-- The re-evaluation flag is raised only when some criteria state at the
end of the iteration was `YesAndCheckAgain` or `NoAndCheckAgain`. -/
lemma reevalAux_flag (round : Nat) (inners : List RunCriteriaInner) :
    ∀ (rest : List ShouldRun) (done : List ShouldRun) (index : Nat) (flag : Bool),
    (reevalAux round inners done index rest flag).2 = true →
    flag = true ∨ ∃ s ∈ rest,
      s = ShouldRun.YesAndCheckAgain ∨ s = ShouldRun.NoAndCheckAgain := by
  intro rest
  induction rest with
  | nil => intro done index flag h; exact Or.inl h
  | cons c rest ih =>
    intro done index flag h
    cases c with
    | No =>
      rcases ih _ _ _ h with h' | ⟨s, hs, h'⟩
      · exact Or.inl h'
      · exact Or.inr ⟨s, List.mem_cons_of_mem _ hs, h'⟩
    | Yes =>
      rcases ih _ _ _ h with h' | ⟨s, hs, h'⟩
      · exact Or.inl h'
      · exact Or.inr ⟨s, List.mem_cons_of_mem _ hs, h'⟩
    | YesAndCheckAgain =>
      exact Or.inr ⟨_, List.mem_cons_self _ _, Or.inl rfl⟩
    | NoAndCheckAgain =>
      exact Or.inr ⟨_, List.mem_cons_self _ _, Or.inr rfl⟩

lemma ran_entry (systems : List (Option Nat)) (i : Nat)
    (hi : systems[i]? = some none) (cs : List ShouldRun) (default : ShouldRun) :
    (systems.map (fun c => containerShouldRun c cs default))[i]? =
      some (shouldRunMatchesYes default) := by
  simp [List.getElem?_map, hi, containerShouldRun]

/-- Once the default is `No`, a container without run criteria is gated off
in every remaining iteration. -/
lemma noCriteria_not_rerun (inners : List RunCriteriaInner)
    (systems : List (Option Nat)) (i : Nat) (hi : systems[i]? = some none) :
    ∀ (fuel round : Nat) (cs : List ShouldRun) (r : Nat) (l : List Bool),
    (runSystemLoop inners systems fuel round cs .No)[r]? = some l →
    l[i]? = some false := by
  intro fuel
  induction fuel with
  | zero =>
    intro round cs r l h
    cases r with
    | zero =>
      simp only [runSystemLoop, List.getElem?_cons_zero, Option.some.injEq] at h
      subst h
      simpa using ran_entry systems i hi cs .No
    | succ r => simp [runSystemLoop] at h
  | succ fuel ih =>
    intro round cs r l h
    simp only [runSystemLoop] at h
    by_cases hf : (reevalCriteria round inners cs).2
    · rw [if_pos hf] at h
      cases r with
      | zero =>
        simp only [List.getElem?_cons_zero, Option.some.injEq] at h
        subst h
        simpa using ran_entry systems i hi cs .No
      | succ r =>
        rw [List.getElem?_cons_succ] at h
        exact ih _ _ _ _ h
    · rw [if_neg hf] at h
      cases r with
      | zero =>
        simp only [List.getElem?_cons_zero, Option.some.injEq] at h
        subst h
        simpa using ran_entry systems i hi cs .No
      | succ r => simp at h

/-- C7: in `SystemStage::run`'s per-tick system loop, a system without run
criteria is gated to run in the first iteration and in no later one (the
default should-run value becomes `No` after the first iteration, so it
executes exactly once per stage pass), and a second iteration happens only
when some run-criteria state at the end of the first iteration was
`YesAndCheckAgain` or `NoAndCheckAgain` — the statement is generic over the
incoming states and round, so it applies at every iteration boundary. -/
theorem stage_system_loop_once_and_retrigger (inners : List RunCriteriaInner)
    (systems : List (Option Nat)) (fuel round : Nat) (cs : List ShouldRun)
    (i : Nat) (hi : systems[i]? = some none) :
    ((runSystemLoop inners systems fuel round cs .Yes)[0]?).map
        (fun l => l[i]?) = some (some true)
    ∧ (∀ r l, (runSystemLoop inners systems fuel round cs .Yes)[r + 1]?
        = some l → l[i]? = some false)
    ∧ (∀ l, (runSystemLoop inners systems fuel round cs .Yes)[1]? = some l →
        ∃ s ∈ cs, s = ShouldRun.YesAndCheckAgain ∨ s = ShouldRun.NoAndCheckAgain) := by
  refine ⟨?_, ?_, ?_⟩
  · have he := ran_entry systems i hi cs .Yes
    cases fuel with
    | zero =>
      simp only [runSystemLoop, List.getElem?_cons_zero, Option.map_some']
      rw [he]
      rfl
    | succ fuel =>
      simp only [runSystemLoop]
      by_cases hf : (reevalCriteria round inners cs).2
      · rw [if_pos hf]
        simp only [List.getElem?_cons_zero, Option.map_some']
        rw [he]
        rfl
      · rw [if_neg hf]
        simp only [List.getElem?_cons_zero, Option.map_some']
        rw [he]
        rfl
  · intro r l h
    cases fuel with
    | zero => simp [runSystemLoop] at h
    | succ fuel =>
      simp only [runSystemLoop] at h
      by_cases hf : (reevalCriteria round inners cs).2
      · rw [if_pos hf, List.getElem?_cons_succ] at h
        exact noCriteria_not_rerun inners systems i hi _ _ _ _ _ h
      · rw [if_neg hf] at h
        simp at h
  · intro l h
    cases fuel with
    | zero => simp [runSystemLoop] at h
    | succ fuel =>
      simp only [runSystemLoop] at h
      by_cases hf : (reevalCriteria round inners cs).2
      · rcases reevalAux_flag round inners cs [] 0 false hf with h' | h'
        · exact absurd h' (by simp)
        · exact h'
      · rw [if_neg hf] at h
        simp at h

/-- C7 witness: system `0` has no criteria, system `1` is gated by criteria
`0`, which starts `YesAndCheckAgain` and keeps re-triggering; in iteration
0 both run, in iteration 1 only the gated system runs, and the re-trigger
came from a `YesAndCheckAgain` state. -/
theorem stage_system_loop_once_and_retrigger_witness :
    ((runSystemLoop [.Single fun _ => .YesAndCheckAgain] [none, some 0] 2 0
        [.YesAndCheckAgain] .Yes)[0]?).map (fun l => l[0]?) = some (some true)
    ∧ ([false, true] : List Bool)[0]? = some false
    ∧ ∃ s ∈ [ShouldRun.YesAndCheckAgain],
        s = ShouldRun.YesAndCheckAgain ∨ s = ShouldRun.NoAndCheckAgain := by
  have h := stage_system_loop_once_and_retrigger
    [.Single fun _ => .YesAndCheckAgain] [none, some 0] 2 0
    [.YesAndCheckAgain] 0 rfl
  exact ⟨h.1, h.2.1 0 [false, true] rfl, h.2.2 [false, true] rfl⟩


/-! ### Theorems: ambiguity detection -/

lemma getD_replicate_empty (n i : Nat) :
    (List.replicate n (∅ : Finset Nat)).getD i ∅ = ∅ := by
  induction n generalizing i with
  | zero => simp [List.getD]
  | succ n ih =>
    cases i with
    | zero => simp [List.replicate_succ]
    | succ i => simp [List.replicate_succ, ih i]

lemma set_replicate_empty (n i : Nat) :
    (List.replicate n (∅ : Finset Nat)).set i ∅ = List.replicate n ∅ := by
  induction n generalizing i with
  | zero => simp
  | succ n ih =>
    cases i with
    | zero => simp [List.replicate_succ]
    | succ i => simp [List.replicate_succ, ih i]

lemma buildDependencyMaps_replicate (c : SystemContainer) (hc : c.dependencies = []) :
    ∀ (m k : Nat) (ad adep : List (Finset Nat)),
    buildDependencyMaps (List.replicate m c) k ad adep =
      (ad ++ List.replicate m ∅, adep ++ List.replicate m ∅) := by
  intro m
  induction m with
  | zero => intro k ad adep; simp [buildDependencyMaps]
  | succ m ih =>
    intro k ad adep
    rw [List.replicate_succ]
    simp only [buildDependencyMaps, hc, List.foldl_nil]
    rw [ih]
    simp [List.replicate_succ]

lemma closeDependantsAux_replicate (n : Nat) :
    ∀ (idxs : List Nat),
    closeDependantsAux idxs (List.replicate n (∅ : Finset Nat)) =
      List.replicate n ∅ := by
  intro idxs
  induction idxs with
  | nil => rfl
  | cons i rest ih =>
    simp only [closeDependantsAux, getD_replicate_empty, Finset.biUnion_empty,
      set_replicate_empty]
    exact ih

lemma getD_map_range (f : Nat → Finset Nat) (n k : Nat) (hk : k < n) :
    ((List.range n).map f).getD k ∅ = f k := by
  rw [List.getD_eq_getElem?_getD, List.getElem?_map]
  simp [List.getElem?_range hk]

lemma allRelations_replicate (c : SystemContainer) (hc : c.dependencies = [])
    (N : Nat) :
    allRelations (List.replicate N c) =
      (List.range N).map (fun i => {i}) := by
  unfold allRelations
  rw [List.length_replicate, buildDependencyMaps_replicate c hc]
  simp only [List.nil_append, closeDependantsAux_replicate]
  refine List.map_congr_left ?_
  intro i _
  simp [getD_replicate_empty]

lemma getD_replicate_of_lt (c : SystemContainer) (N i : Nat) (hi : i < N) :
    (List.replicate N c).getD i .default = c := by
  rw [List.getD_eq_getElem?_getD, List.getElem?_replicate]
  simp [hi]

lemma should_ignore_replicate (r : Nat) (nm : String)
    (rl : ExecutionOrderAmbiguities) (N a b : Nat) (ha : a < N) (hb : b < N) :
    should_ignore_ambiguity
      (List.replicate N ⟨[], .Check, [], nm, some ⟨{r}, {r}⟩⟩) a b [] rl = false := by
  unfold should_ignore_ambiguity
  by_cases hf : rl = ExecutionOrderAmbiguities.Forbid
  · simp [hf]
  · simp only [if_neg hf]
    rw [getD_replicate_of_lt _ _ _ ha, getD_replicate_of_lt _ _ _ hb]
    simp

lemma inner_length_replicate (r : Nat) (nm : String)
    (rl : ExecutionOrderAmbiguities) (N a : Nat) (ha : a < N)
    (processed : Finset Nat) :
    ∀ (bs : List Nat), (∀ b ∈ bs, b < N) →
    ∀ (ambs : List (Nat × Nat × Finset Nat)),
    (ambiguityInner (List.replicate N ⟨[], .Check, [], nm, some ⟨{r}, {r}⟩⟩)
        [] rl a processed bs ambs).length
      = ambs.length + bs.countP (fun b => decide (b ∉ processed)) := by
  intro bs
  induction bs with
  | nil => intro _ ambs; simp [ambiguityInner]
  | cons b rest ih =>
    intro hb ambs
    have hbN : b < N := hb b (List.mem_cons_self _ _)
    have hrest : ∀ x ∈ rest, x < N := fun x hx => hb x (List.mem_cons_of_mem _ hx)
    simp only [ambiguityInner]
    rw [should_ignore_replicate r nm rl N a b ha hbN]
    by_cases hp : b ∉ processed
    · rw [if_pos ⟨hp, rfl⟩]
      rw [getD_replicate_of_lt _ _ _ ha, getD_replicate_of_lt _ _ _ hbN]
      simp only [Access.get_conflicts]
      have hconf : (({r} : Finset Nat) ∩ {r} ∪ {r} ∩ {r}) ≠ ∅ := by
        simp [Finset.inter_self]
      rw [if_pos hconf]
      rw [ih hrest]
      simp [List.countP_cons, hp]
      omega
    · rw [if_neg (by tauto)]
      rw [ih hrest]
      simp only [List.countP_cons]
      simp at hp
      simp [hp]

lemma countP_range_gt (N k : Nat) :
    (List.range N).countP (fun b => decide (k < b)) = N - (k + 1) := by
  induction N with
  | zero => simp
  | succ N ih =>
    rw [List.range_succ, List.countP_append]
    simp only [List.countP_cons, List.countP_nil]
    by_cases h : k < N
    · simp [h, ih]
      omega
    · simp [h, ih]
      omega

lemma triangle_succ (m : Nat) : (m + 1) * m / 2 = m + m * (m - 1) / 2 := by
  cases m with
  | zero => rfl
  | succ m =>
    simp only [Nat.add_sub_cancel]
    have h : (m + 1 + 1) * (m + 1) = (m + 1) * m + (m + 1) * 2 := by ring
    rw [h, Nat.add_mul_div_right _ _ (by norm_num)]
    omega

lemma outer_length_replicate (r : Nat) (nm : String)
    (rl : ExecutionOrderAmbiguities) (N : Nat) :
    ∀ (m k : Nat), k + m = N →
    ∀ (ambs : List (Nat × Nat × Finset Nat)),
    (ambiguityOuter (List.replicate N ⟨[], .Check, [], nm, some ⟨{r}, {r}⟩⟩)
        [] rl ((List.range N).map (fun i => ({i} : Finset Nat)))
        (List.range' k m) (Finset.range k) ambs).length
      = ambs.length + m * (m - 1) / 2 := by
  intro m
  induction m with
  | zero => intro k hk ambs; simp [ambiguityOuter]
  | succ m ih =>
    intro k hk ambs
    have hkN : k < N := by omega
    rw [List.range'_succ]
    simp only [ambiguityOuter, List.length_replicate]
    rw [getD_map_range _ _ _ hkN]
    have hbs : ∀ b ∈ (List.range N).filter (fun index_b => decide (index_b ∉ ({k} : Finset Nat))),
        b < N := by
      intro b hbmem
      have := List.mem_filter.mp hbmem
      exact List.mem_range.mp this.1
    have hrange : insert k (Finset.range k) = Finset.range (k + 1) :=
      (Finset.range_succ ▸ rfl)
    rw [hrange, ih (k + 1) (by omega)]
    rw [inner_length_replicate r nm rl N k hkN _ _ hbs]
    have hcount : ((List.range N).filter
        (fun index_b => decide (index_b ∉ ({k} : Finset Nat)))).countP
          (fun b => decide (b ∉ Finset.range k)) = N - (k + 1) := by
      rw [List.countP_filter]
      have : ∀ b, ((decide (b ∉ Finset.range k)) && (decide (b ∉ ({k} : Finset Nat))))
          = decide (k < b) := by
        intro b
        by_cases h1 : b ∈ Finset.range k <;> by_cases h2 : b ∈ ({k} : Finset Nat) <;>
          simp_all [Finset.mem_range, Finset.mem_singleton] <;> omega
      rw [List.countP_congr (fun b _ => by rw [this b])]
      exact countP_range_gt N k
    rw [hcount]
    have hm : N - (k + 1) = m := by omega
    rw [hm]
    simp only [Nat.add_sub_cancel]
    rw [triangle_succ]
    omega

/-- C4: `N` systems that all take exclusive access to the same resource
kind `r` (each contributes `add_write r`, so both the writes and the
reads-and-writes sets hold `r`), with no ordering constraints, no
ambiguity opt-outs (`AmbiguityDetection::Check`, empty crates filter) and
any report level, produce exactly `N * (N - 1) / 2` reported ambiguities:
each unordered pair is counted exactly once, at its smaller index. -/
theorem ambiguity_count_replicate (N r : Nat) (nm : String)
    (rl : ExecutionOrderAmbiguities) :
    (find_ambiguities (List.replicate N ⟨[], .Check, [], nm, some ⟨{r}, {r}⟩⟩)
      [] rl).length = N * (N - 1) / 2 := by
  unfold find_ambiguities
  rw [List.length_replicate, allRelations_replicate _ rfl]
  nth_rewrite 2 [List.range_eq_range']
  simpa using outer_length_replicate r nm rl N N 0 (by omega) []

lemma dependsOn_lt_length {systems : List SystemContainer} {x y : Nat}
    (h : dependsOn systems x y) : x < systems.length := by
  by_contra hx
  rw [dependsOn, List.getD_eq_default _ _ (by omega)] at h
  simp [SystemContainer.default] at h

lemma dependsOn_lt {systems : List SystemContainer} (hs : TopoSorted systems)
    {x y : Nat} (h : dependsOn systems x y) : y < x :=
  hs x (dependsOn_lt_length h) y h

lemma transGen_src_lt {systems : List SystemContainer} {x y : Nat}
    (h : Relation.TransGen (dependsOn systems) x y) : x < systems.length := by
  rcases Relation.TransGen.head'_iff.mp h with ⟨b, hb, -⟩
  exact dependsOn_lt_length hb

lemma transGen_tgt_lt {systems : List SystemContainer} (hs : TopoSorted systems)
    {x y : Nat} (h : Relation.TransGen (dependsOn systems) x y) : y < x := by
  induction h with
  | single h => exact dependsOn_lt hs h
  | tail _ h ih => exact lt_trans (dependsOn_lt hs h) ih

lemma getD_append_lt (l : List (Finset Nat)) (e : Finset Nat) (i : Nat)
    (h : i < l.length) : (l ++ [e]).getD i ∅ = l.getD i ∅ := by
  rw [List.getD_eq_getElem?_getD, List.getD_eq_getElem?_getD,
    List.getElem?_append_left h]

lemma getD_append_len (l : List (Finset Nat)) (e : Finset Nat) :
    (l ++ [e]).getD l.length ∅ = e := by
  rw [List.getD_eq_getElem?_getD, List.getElem?_concat_length]
  rfl

lemma getD_oob (l : List (Finset Nat)) (i : Nat) (h : l.length ≤ i) :
    l.getD i ∅ = ∅ :=
  List.getD_eq_default _ _ h

lemma getD_append_cases (l : List (Finset Nat)) (e : Finset Nat) (i : Nat) :
    (l ++ [e]).getD i ∅ =
      if i < l.length then l.getD i ∅ else if i = l.length then e else ∅ := by
  rcases lt_trichotomy i l.length with h | h | h
  · rw [if_pos h]
    exact getD_append_lt _ _ _ h
  · subst h
    simp [getD_append_len]
  · rw [getD_oob _ _ (by simp; omega)]
    rw [if_neg (by omega), if_neg (by omega)]

lemma fold_fst (ad : List (Finset Nat)) (index : Nat) :
    ∀ (ds : List Nat) (s : Finset Nat) (m : List (Finset Nat)),
    (ds.foldl (fun (p : Finset Nat × List (Finset Nat)) dependency =>
        (insert dependency (p.1 ∪ ad.getD dependency ∅),
         p.2.set dependency (insert index (p.2.getD dependency ∅)))) (s, m)).1
      = ds.foldl (fun s dependency => insert dependency (s ∪ ad.getD dependency ∅)) s := by
  intro ds
  induction ds with
  | nil => intro s m; rfl
  | cons d rest ih => intro s m; exact ih _ _

lemma fold_snd (ad : List (Finset Nat)) (index : Nat) :
    ∀ (ds : List Nat) (s : Finset Nat) (m : List (Finset Nat)),
    (ds.foldl (fun (p : Finset Nat × List (Finset Nat)) dependency =>
        (insert dependency (p.1 ∪ ad.getD dependency ∅),
         p.2.set dependency (insert index (p.2.getD dependency ∅)))) (s, m)).2
      = ds.foldl (fun m dependency =>
          m.set dependency (insert index (m.getD dependency ∅))) m := by
  intro ds
  induction ds with
  | nil => intro s m; rfl
  | cons d rest ih => intro s m; exact ih _ _

lemma dep_fold_mem (ad : List (Finset Nat)) (b : Nat) :
    ∀ (ds : List Nat) (s : Finset Nat),
    (b ∈ ds.foldl (fun s dependency => insert dependency (s ∪ ad.getD dependency ∅)) s
      ↔ b ∈ s ∨ ∃ d ∈ ds, b = d ∨ b ∈ ad.getD d ∅) := by
  intro ds
  induction ds with
  | nil => intro s; simp
  | cons d rest ih =>
    intro s
    rw [List.foldl_cons, ih]
    simp only [Finset.mem_insert, Finset.mem_union, List.mem_cons]
    constructor
    · rintro ((h | h | h) | ⟨x, hx, h⟩)
      · exact Or.inr ⟨d, Or.inl rfl, Or.inl h⟩
      · exact Or.inl h
      · exact Or.inr ⟨d, Or.inl rfl, Or.inr h⟩
      · exact Or.inr ⟨x, Or.inr hx, h⟩
    · rintro (h | ⟨x, (rfl | hx), h⟩)
      · exact Or.inl (Or.inr (Or.inl h))
      · rcases h with rfl | h
        · exact Or.inl (Or.inl rfl)
        · exact Or.inl (Or.inr (Or.inr h))
      · exact Or.inr ⟨x, hx, h⟩

lemma dept_fold_getD (index : Nat) :
    ∀ (ds : List Nat) (m : List (Finset Nat)), (∀ d ∈ ds, d < m.length) →
    ∀ (d0 x : Nat),
    (x ∈ (ds.foldl (fun m dependency =>
        m.set dependency (insert index (m.getD dependency ∅))) m).getD d0 ∅
      ↔ x ∈ m.getD d0 ∅ ∨ (x = index ∧ d0 ∈ ds)) := by
  intro ds
  induction ds with
  | nil => intro m _ d0 x; simp
  | cons d rest ih =>
    intro m hds d0 x
    rw [List.foldl_cons]
    have hd : d < m.length := hds d (List.mem_cons_self _ _)
    have hlen : (m.set d (insert index (m.getD d ∅))).length = m.length := by simp
    rw [ih _ (by rw [hlen]; exact fun y hy => hds y (List.mem_cons_of_mem _ hy)) d0 x]
    have hset : (m.set d (insert index (m.getD d ∅))).getD d0 ∅ =
        if d = d0 then insert index (m.getD d ∅) else m.getD d0 ∅ := by
      by_cases hdd : d = d0
      · subst hdd
        rw [if_pos rfl, List.getD_eq_getElem?_getD, List.getElem?_set_eq_of_lt _ hd]
        rfl
      · rw [if_neg hdd, List.getD_eq_getElem?_getD, List.getElem?_set_ne hdd,
          List.getD_eq_getElem?_getD]
    rw [hset]
    by_cases hdd : d = d0
    · subst hdd
      rw [if_pos rfl]
      simp only [Finset.mem_insert, List.mem_cons, eq_self_iff_true, true_or,
        and_true]
      tauto
    · simp only [if_neg hdd, List.mem_cons]
      constructor
      · rintro (h | ⟨rfl, h⟩)
        · exact Or.inl h
        · exact Or.inr ⟨rfl, Or.inr h⟩
      · rintro (h | ⟨rfl, rfl | h⟩)
        · exact Or.inl h
        · exact absurd rfl hdd
        · exact Or.inr ⟨rfl, h⟩

lemma fold_set_length (index : Nat) (ds : List Nat) :
    ∀ (m : List (Finset Nat)),
    (ds.foldl (fun m dependency =>
        m.set dependency (insert index (m.getD dependency ∅))) m).length
      = m.length := by
  induction ds with
  | nil => intro m; rfl
  | cons d rest ih => intro m; rw [List.foldl_cons, ih]; simp

lemma ad_step (systems : List SystemContainer) (hs : TopoSorted systems)
    (k : Nat) (hk : k < systems.length) (ad : List (Finset Nat))
    (hlen : ad.length = k)
    (hinv : ∀ a b, b ∈ ad.getD a ∅ ↔
      a < k ∧ Relation.TransGen (dependsOn systems) a b) :
    ∀ a b, b ∈ (ad ++ [(systems.getD k .default).dependencies.foldl
        (fun s dependency => insert dependency (s ∪ ad.getD dependency ∅)) ∅]).getD a ∅
      ↔ a < k + 1 ∧ Relation.TransGen (dependsOn systems) a b := by
  intro a b
  rw [getD_append_cases, hlen]
  rcases lt_trichotomy a k with h | h | h
  · rw [if_pos h, hinv]
    constructor
    · rintro ⟨h1, h2⟩; exact ⟨by omega, h2⟩
    · rintro ⟨h1, h2⟩; exact ⟨h, h2⟩
  · subst h
    rw [if_neg (by omega), if_pos rfl, dep_fold_mem]
    simp only [Finset.not_mem_empty, false_or]
    constructor
    · rintro ⟨d, hd, rfl | hb⟩
      · exact ⟨by omega, Relation.TransGen.single hd⟩
      · rw [hinv] at hb
        exact ⟨by omega, Relation.TransGen.head hd hb.2⟩
    · rintro ⟨-, htg⟩
      rcases Relation.TransGen.head'_iff.mp htg with ⟨d, hd, hrt⟩
      have hdk : d < a := dependsOn_lt hs hd
      rcases Relation.reflTransGen_iff_eq_or_transGen.mp hrt with rfl | htg'
      · exact ⟨b, hd, Or.inl rfl⟩
      · exact ⟨d, hd, Or.inr ((hinv d b).mpr ⟨hdk, htg'⟩)⟩
  · rw [if_neg (by omega), if_neg (by omega)]
    simp only [Finset.not_mem_empty, false_iff]
    rintro ⟨h1, -⟩
    omega

lemma adep_step (systems : List SystemContainer) (hs : TopoSorted systems)
    (k : Nat) (hk : k < systems.length) (adep : List (Finset Nat))
    (hlen : adep.length = k)
    (hinv : ∀ d x, x ∈ adep.getD d ∅ ↔ x < k ∧ dependsOn systems x d) :
    ∀ d x, x ∈ (((systems.getD k .default).dependencies.foldl
        (fun (m : List (Finset Nat)) dependency =>
          m.set dependency (insert k (m.getD dependency ∅)))
        adep) ++ [∅]).getD d ∅
      ↔ x < k + 1 ∧ dependsOn systems x d := by
  intro d x
  rw [getD_append_cases, fold_set_length, hlen]
  have hds : ∀ j ∈ (systems.getD k .default).dependencies, j < adep.length := by
    rw [hlen]; exact hs k hk
  rcases lt_trichotomy d k with h | h | h
  · rw [if_pos h, dept_fold_getD k _ _ hds, hinv]
    constructor
    · rintro (⟨h1, h2⟩ | ⟨rfl, h2⟩)
      · exact ⟨by omega, h2⟩
      · exact ⟨by omega, h2⟩
    · rintro ⟨h1, h2⟩
      rcases Nat.lt_succ_iff_lt_or_eq.mp h1 with h1 | rfl
      · exact Or.inl ⟨h1, h2⟩
      · exact Or.inr ⟨rfl, h2⟩
  · subst h
    rw [if_neg (by omega), if_pos rfl]
    simp only [Finset.not_mem_empty, false_iff]
    rintro ⟨h1, h2⟩
    have := dependsOn_lt hs h2
    omega
  · rw [if_neg (by omega), if_neg (by omega)]
    simp only [Finset.not_mem_empty, false_iff]
    rintro ⟨h1, h2⟩
    have := dependsOn_lt hs h2
    omega

lemma buildDeps_spec (systems : List SystemContainer) (hs : TopoSorted systems) :
    ∀ (rest : List SystemContainer) (k : Nat) (ad adep : List (Finset Nat)),
    systems.drop k = rest → ad.length = k → adep.length = k →
    (∀ a b, b ∈ ad.getD a ∅ ↔ a < k ∧ Relation.TransGen (dependsOn systems) a b) →
    (∀ d x, x ∈ adep.getD d ∅ ↔ x < k ∧ dependsOn systems x d) →
    (∀ a b, b ∈ (buildDependencyMaps rest k ad adep).1.getD a ∅ ↔
        Relation.TransGen (dependsOn systems) a b)
    ∧ (∀ d x, x ∈ (buildDependencyMaps rest k ad adep).2.getD d ∅ ↔
        dependsOn systems x d) := by
  intro rest
  induction rest with
  | nil =>
    intro k ad adep hdrop hlen1 hlen2 hinv1 hinv2
    have hk : systems.length ≤ k := List.drop_eq_nil_iff.mp hdrop
    simp only [buildDependencyMaps]
    constructor
    · intro a b
      rw [hinv1]
      constructor
      · rintro ⟨-, h⟩; exact h
      · intro h
        exact ⟨lt_of_lt_of_le (transGen_src_lt h) hk, h⟩
    · intro d x
      rw [hinv2]
      constructor
      · rintro ⟨-, h⟩; exact h
      · intro h
        exact ⟨lt_of_lt_of_le (dependsOn_lt_length h) hk, h⟩
  | cons c rest ih =>
    intro k ad adep hdrop hlen1 hlen2 hinv1 hinv2
    have hk : k < systems.length := by
      by_contra hc
      rw [List.drop_eq_nil_of_le (by omega)] at hdrop
      exact List.cons_ne_nil _ _ hdrop.symm
    have hc : systems.getD k .default = c := by
      have h0 : (systems.drop k)[0]? = some c := by rw [hdrop]; simp
      rw [List.getElem?_drop, Nat.add_zero] at h0
      rw [List.getD_eq_getElem?_getD, h0]
      rfl
    have hrest : systems.drop (k + 1) = rest := by
      rw [← List.drop_drop 1 k systems, hdrop]
      simp
    simp only [buildDependencyMaps]
    rw [fold_fst, fold_snd]
    exact ih (k + 1) _ _ hrest (by simp [hlen1])
      (by rw [List.length_append, fold_set_length]; simp [hlen2])
      (by rw [← hc]; exact ad_step systems hs k hk ad hlen1 hinv1)
      (by rw [← hc]; exact adep_step systems hs k hk adep hlen2 hinv2)

lemma getD_set_lt (l : List (Finset Nat)) (m : Nat) (v : Finset Nat) (d : Nat)
    (hm : m < l.length) :
    (l.set m v).getD d ∅ = if m = d then v else l.getD d ∅ := by
  by_cases h : m = d
  · subst h
    rw [if_pos rfl, List.getD_eq_getElem?_getD, List.getElem?_set_eq_of_lt _ hm]
    rfl
  · rw [if_neg h, List.getD_eq_getElem?_getD, List.getElem?_set_ne h,
      List.getD_eq_getElem?_getD]

lemma transGen_tgt_lt_length {systems : List SystemContainer}
    (hs : TopoSorted systems) {x y : Nat}
    (h : Relation.TransGen (dependsOn systems) x y) : y < systems.length :=
  lt_trans (transGen_tgt_lt hs h) (transGen_src_lt h)

lemma closeDeps_spec (systems : List SystemContainer) (hs : TopoSorted systems) :
    ∀ (m : Nat), m ≤ systems.length → ∀ (adep : List (Finset Nat)),
    adep.length = systems.length →
    (∀ d x, d < m → (x ∈ adep.getD d ∅ ↔ dependsOn systems x d)) →
    (∀ d x, m ≤ d → (x ∈ adep.getD d ∅ ↔
      Relation.TransGen (dependsOn systems) x d)) →
    ∀ d x, x ∈ (closeDependantsAux ((List.range m).reverse) adep).getD d ∅ ↔
      Relation.TransGen (dependsOn systems) x d := by
  intro m
  induction m with
  | zero =>
    intro _ adep _ _ hclosed d x
    simpa [closeDependantsAux] using hclosed d x (Nat.zero_le d)
  | succ m ih =>
    intro hm adep hlen hdirect hclosed d x
    have hrev : (List.range (m + 1)).reverse = m :: (List.range m).reverse := by
      rw [List.range_succ, List.reverse_append]
      rfl
    rw [hrev]
    simp only [closeDependantsAux]
    have hmlen : m < adep.length := by omega
    have hnew : ∀ z, z ∈ (adep.getD m ∅).biUnion
        (fun dependant => insert dependant (adep.getD dependant ∅)) ↔
        Relation.TransGen (dependsOn systems) z m := by
      intro z
      rw [Finset.mem_biUnion]
      constructor
      · rintro ⟨dpt, hdpt, hz⟩
        have hdep : dependsOn systems dpt m := (hdirect m dpt (by omega)).mp hdpt
        have hdm : m < dpt := dependsOn_lt hs hdep
        rcases Finset.mem_insert.mp hz with rfl | hz
        · exact Relation.TransGen.single hdep
        · have := (hclosed dpt z (by omega)).mp hz
          exact Relation.TransGen.tail' (Relation.TransGen.to_reflTransGen this) hdep
      · intro htg
        rcases Relation.TransGen.tail'_iff.mp htg with ⟨dpt, hrt, hdep⟩
        have hdm : m < dpt := dependsOn_lt hs hdep
        refine ⟨dpt, (hdirect m dpt (by omega)).mpr hdep, ?_⟩
        rcases Relation.reflTransGen_iff_eq_or_transGen.mp hrt with rfl | htg'
        · exact Finset.mem_insert_self _ _
        · exact Finset.mem_insert_of_mem ((hclosed dpt z (by omega)).mpr htg')
    apply ih (by omega) _ (by simpa using hlen)
    · intro d' x' hd'
      rw [getD_set_lt _ _ _ _ hmlen, if_neg (by omega)]
      exact hdirect d' x' (by omega)
    · intro d' x' hd'
      rw [getD_set_lt _ _ _ _ hmlen]
      by_cases h : m = d'
      · subst h
        rw [if_pos rfl]
        exact hnew x'
      · rw [if_neg h]
        exact hclosed d' x' (by omega)

lemma buildDeps_len :
    ∀ (rest : List SystemContainer) (k : Nat) (ad adep : List (Finset Nat)),
    (buildDependencyMaps rest k ad adep).1.length = ad.length + rest.length
    ∧ (buildDependencyMaps rest k ad adep).2.length = adep.length + rest.length := by
  intro rest
  induction rest with
  | nil => intro k ad adep; simp [buildDependencyMaps]
  | cons c rest ih =>
    intro k ad adep
    simp only [buildDependencyMaps]
    rw [fold_fst, fold_snd]
    rcases ih (k + 1) (ad ++ [c.dependencies.foldl
      (fun s dependency => insert dependency (s ∪ ad.getD dependency ∅)) ∅])
      ((c.dependencies.foldl (fun (m : List (Finset Nat)) dependency =>
        m.set dependency (insert k (m.getD dependency ∅))) adep) ++ [∅]) with ⟨h1, h2⟩
    constructor
    · rw [h1]
      simp
      omega
    · rw [h2]
      rw [List.length_append, fold_set_length]
      simp
      omega

lemma allRelations_mem (systems : List SystemContainer) (hs : TopoSorted systems)
    (a y : Nat) (ha : a < systems.length) :
    y ∈ (allRelations systems).getD a ∅ ↔
      y = a ∨ Relation.TransGen (dependsOn systems) a y
        ∨ Relation.TransGen (dependsOn systems) y a := by
  unfold allRelations
  rw [getD_map_range _ _ _ ha]
  have hspec := buildDeps_spec systems hs systems 0 [] [] rfl rfl rfl
    (by intro a' b; simp) (by intro d' x; simp)
  have hlen2 : (buildDependencyMaps systems 0 [] []).2.length = systems.length := by
    have := (buildDeps_len systems 0 [] []).2
    simpa using this
  have hclose := closeDeps_spec systems hs systems.length le_rfl
    (buildDependencyMaps systems 0 [] []).2 hlen2
    (fun d x _ => hspec.2 d x)
    (by
      intro d x hd
      rw [getD_oob _ _ (by omega)]
      simp only [Finset.not_mem_empty, false_iff]
      intro htg
      exact absurd (transGen_tgt_lt_length hs htg) (by omega))
  rw [Finset.mem_insert, Finset.mem_union, hspec.1, hclose]

lemma ambiguityInner_mem (systems : List SystemContainer)
    (crates_filter : List String) (report_level : ExecutionOrderAmbiguities)
    (index_a : Nat) (processed : Finset Nat) (e : Nat × Nat × Finset Nat) :
    ∀ (bs : List Nat) (ambs : List (Nat × Nat × Finset Nat)),
    e ∈ ambiguityInner systems crates_filter report_level index_a processed bs ambs →
    e ∈ ambs ∨ (e.1 = index_a ∧ e.2.1 ∈ bs) := by
  intro bs
  induction bs with
  | nil => intro ambs h; exact Or.inl h
  | cons b rest ih =>
    intro ambs h
    simp only [ambiguityInner] at h
    rcases ih _ h with h' | ⟨h1, h2⟩
    · split at h'
      · split at h'
        · split at h'
          · rcases List.mem_append.mp h' with h'' | h''
            · exact Or.inl h''
            · simp only [List.mem_singleton] at h''
              subst h''
              exact Or.inr ⟨rfl, List.mem_cons_self _ _⟩
          · exact Or.inl h'
        · rcases List.mem_append.mp h' with h'' | h''
          · exact Or.inl h''
          · simp only [List.mem_singleton] at h''
            subst h''
            exact Or.inr ⟨rfl, List.mem_cons_self _ _⟩
      · exact Or.inl h'
    · exact Or.inr ⟨h1, List.mem_cons_of_mem _ h2⟩

lemma ambiguityOuter_mem (systems : List SystemContainer)
    (crates_filter : List String) (report_level : ExecutionOrderAmbiguities)
    (relations : List (Finset Nat)) (e : Nat × Nat × Finset Nat) :
    ∀ (idxs : List Nat) (processed : Finset Nat)
      (ambs : List (Nat × Nat × Finset Nat)),
    e ∈ ambiguityOuter systems crates_filter report_level relations idxs processed ambs →
    e ∈ ambs ∨ ∃ a ∈ idxs, e.1 = a ∧
      e.2.1 ∈ (List.range systems.length).filter
        (fun index_b => index_b ∉ relations.getD a ∅) := by
  intro idxs
  induction idxs with
  | nil => intro processed ambs h; exact Or.inl h
  | cons a rest ih =>
    intro processed ambs h
    simp only [ambiguityOuter] at h
    rcases ih _ _ h with h' | ⟨x, hx, h1, h2⟩
    · rcases ambiguityInner_mem _ _ _ _ _ _ _ _ h' with h'' | ⟨h1, h2⟩
      · exact Or.inl h''
      · exact Or.inr ⟨a, List.mem_cons_self _ _, h1, h2⟩
    · exact Or.inr ⟨x, List.mem_cons_of_mem _ hx, h1, h2⟩

lemma find_ambiguities_mem (systems : List SystemContainer)
    (crates_filter : List String) (report_level : ExecutionOrderAmbiguities)
    (e : Nat × Nat × Finset Nat)
    (h : e ∈ find_ambiguities systems crates_filter report_level) :
    e.1 < systems.length ∧ e.2.1 ∉ (allRelations systems).getD e.1 ∅ := by
  rcases ambiguityOuter_mem _ _ _ _ _ _ _ _ h with h' | ⟨a, ha, h1, h2⟩
  · simp at h'
  · subst h1
    have := List.mem_filter.mp h2
    refine ⟨List.mem_range.mp ha, ?_⟩
    simpa using this.2

/-- C3: for topologically sorted systems, any pair ordered directly or
transitively by the declared dependency graph — in either direction — is
never reported by `find_ambiguities`, whatever the two systems' access
footprints, crates filter, or report level; in particular a system declared
before another with conflicting access yields no reported ambiguity. -/
theorem find_ambiguities_no_ordered_pair (systems : List SystemContainer)
    (crates_filter : List String) (report_level : ExecutionOrderAmbiguities)
    (hs : TopoSorted systems) (a b : Nat)
    (hord : Relation.TransGen (dependsOn systems) a b
      ∨ Relation.TransGen (dependsOn systems) b a)
    (conflicts : Finset Nat) :
    (a, b, conflicts) ∉ find_ambiguities systems crates_filter report_level
    ∧ (b, a, conflicts) ∉ find_ambiguities systems crates_filter report_level := by
  constructor
  · intro hmem
    rcases find_ambiguities_mem _ _ _ _ hmem with ⟨hlt, hnotrel⟩
    exact hnotrel ((allRelations_mem systems hs a b hlt).mpr (Or.inr hord))
  · intro hmem
    rcases find_ambiguities_mem _ _ _ _ hmem with ⟨hlt, hnotrel⟩
    exact hnotrel ((allRelations_mem systems hs b a hlt).mpr
      (Or.inr (Or.symm hord)))

/-- C3 witness: system `1` (exclusive access to kind `0`) depends on system
`0` (same access); neither orientation of the pair is reported despite the
conflicting footprints. -/
theorem find_ambiguities_no_ordered_pair_witness :
    ((0 : Nat), (1 : Nat), (∅ : Finset Nat)) ∉ find_ambiguities
      [⟨[], .Check, [], "a", some ⟨{0}, {0}⟩⟩,
       ⟨[0], .Check, [], "b", some ⟨{0}, {0}⟩⟩] [] .Warn
    ∧ ((1 : Nat), (0 : Nat), (∅ : Finset Nat)) ∉ find_ambiguities
      [⟨[], .Check, [], "a", some ⟨{0}, {0}⟩⟩,
       ⟨[0], .Check, [], "b", some ⟨{0}, {0}⟩⟩] [] .Warn :=
  find_ambiguities_no_ordered_pair
    [⟨[], .Check, [], "a", some ⟨{0}, {0}⟩⟩,
     ⟨[0], .Check, [], "b", some ⟨{0}, {0}⟩⟩] [] .Warn
    (by unfold TopoSorted; decide) 0 1
    (Or.inr (Relation.TransGen.single (by unfold dependsOn; decide))) ∅

end Bevy
